import Mathlib

/-!
Shallow embedding of the endpoint monitor (src/monitor.py, src/main.py).

The repository is a polling HTTP health monitor.  `src/monitor.py` loads a
YAML config, validates its schema (log-only), and loops forever: for each
endpoint it extracts the registrable domain of the URL (via the tldextract
library), probes the endpoint (`check_health`), accumulates per-domain
up/total counters in a dict, and prints one availability line per domain
plus a `---` separator each cycle.  `src/main.py` is an older variant of
the same loop whose domain key is the naive
`url.split("//")[-1].split("/")[0]`.

Modelling conventions:
- HTTP traffic is an oracle: each probe's network outcome is either a
  response with a status code or a raised `requests.RequestException`
  (timeout, connection refused, DNS failure, ...).
- Python exceptions are modelled with `Except` / an `err` field; a raised,
  uncaught exception corresponds to an `Except.error` / `some e` result.
- Python `float` arithmetic in `round(100 * up / total)` is modelled by
  exact rationals, and Python 3 `round` (banker's rounding, half to even)
  by `pyRound`.
- Strings are processed at the `List Char` level (`String.data`) so that
  everything evaluates by kernel reduction.
-/

namespace Monitor

/-- Network-level outcome of one `requests.request` call: either an HTTP
response carrying a status code, or a raised `requests.RequestException`
(covering timeout, connection refused, DNS failure, malformed response). -/
inductive HttpOutcome where
  | response (status : Nat)
  | requestException
  deriving DecidableEq

/-- Python exceptions relevant to the monitor: `KeyError` (missing dict
key), `OSError` (unreadable config file), `yaml.YAMLError` (malformed
YAML), `ZeroDivisionError`. -/
inductive PyErr where
  | keyError
  | osError
  | yamlError
  | zeroDivisionError
  deriving DecidableEq

/-- One endpoint record of the parsed YAML config.  A field of value
`none` models the key being absent from the Python dict.  (The schema in
`src/monitor.py` also constrains the field types; the typed fields of
this structure make those type constraints hold by construction, so only
presence of `name`/`url` can fail here.) -/
structure Endpoint where
  name : Option String := none
  url : Option String := none
  method : Option String := none
  headers : Option (List (String × String)) := none
  body : Option String := none

/-- Embeds line 57 of src/monitor.py (= line 24 of src/main.py):
`method = "GET" if endpoint.get("method") is None else endpoint.get("method")`. -/
def requestMethod (endpoint : Endpoint) : String :=
  match endpoint.method with
  | none => "GET"
  | some m => m

/-- Embeds `check_health` (src/monitor.py lines 50-74; src/main.py lines
19-35 are logically identical).  `endpoint["url"]` raises `KeyError` when
the key is absent; otherwise the request is issued and the classification
is `"UP"` iff `200 <= response.status_code < 300`, with every
`requests.RequestException` caught and mapped to `"DOWN"`. -/
def check_health (endpoint : Endpoint) (outcome : HttpOutcome) : Except PyErr String :=
  match endpoint.url with
  | none => .error .keyError
  | some _ =>
    match outcome with
    | .response s => if 200 ≤ s ∧ s < 300 then .ok "UP" else .ok "DOWN"
    | .requestException => .ok "DOWN"

/-- Validity of one record under the schema of src/monitor.py lines 34-44:
`name` and `url` are required, `method`/`headers`/`body` are optional.
Type mismatches cannot arise in the typed `Endpoint` structure, so only
presence of the required keys is checked. -/
def validEndpoint (e : Endpoint) : Bool :=
  e.name.isSome && e.url.isSome

/-- Embeds `check_schema` (src/monitor.py lines 29-48): validates the
config against the schema; on a `SchemaError` it only logs the error
(`logger.error`) and returns normally.  The returned value is the logged
error message, if any; the function never raises. -/
def check_schema (config : List Endpoint) : Option String :=
  if config.all validEndpoint then none
  else some "SchemaError"

/-! Domain extraction.

`extract_domain` (src/monitor.py lines 77-86) returns
`tldextract.extract(url).registered_domain`.  tldextract is an external
library; the spec treats it as a delegated contract ("public-suffix-aware
registrable domain extraction, ignoring scheme, subdomain labels, port,
path, query, and fragment").  Modelled from the spec: the model below
implements that contract the way tldextract does — strip the scheme,
isolate the network location (cut at the first `/`, `?` or `#`, drop
userinfo up to the last `@`, drop the `:port`), split the host on dots,
find the longest suffix of the label list that occurs in the public
suffix list, and return `domain.suffix` where `domain` is the single
label preceding the matched suffix (empty string when there is no match
or no preceding label).  The public suffix list is represented by a
finite table containing the suffixes relevant to this repository's
examples. -/

/-- Characters allowed in a URL scheme (letters, digits, `+`, `-`, `.`). -/
def schemeChar (c : Char) : Bool :=
  c.isAlpha || c.isDigit || c == '+' || c == '-' || c == '.'

/-- Splits a character list at the first occurrence of `//`, returning
the part before and the part after, or `none` if `//` does not occur. -/
def findDslash : List Char → Option (List Char × List Char)
  | [] => none
  | [_] => none
  | c :: d :: rest =>
    if c = '/' ∧ d = '/' then some ([], rest)
    else
      match findDslash (d :: rest) with
      | none => none
      | some (pre, post) => some (c :: pre, post)

/-- Drops a leading `scheme://` (or a leading bare `//`) from a URL, as
tldextract does: the text before the first `//` must end in `:` preceded
by a nonempty run of scheme characters, otherwise the URL is returned
unchanged. -/
def schemelessUrl (l : List Char) : List Char :=
  match findDslash l with
  | none => l
  | some (pre, rest) =>
    if pre = [] then rest
    else if 2 ≤ pre.length ∧ pre.getLast? = some ':' ∧ pre.dropLast.all schemeChar then rest
    else l

/-- The part of `l` after the last occurrence of `c` (all of `l` when `c`
does not occur), as Python's `rpartition(c)[-1]`. -/
def afterLast (c : Char) (l : List Char) : List Char :=
  (l.reverse.takeWhile fun x => x != c).reverse

/-- The network-location part of a URL: drop the scheme, cut at the first
`/`, `?` or `#`, drop userinfo up to the last `@`, and cut at the first
`:` (the port). -/
def lenient_netloc (l : List Char) : List Char :=
  let s0 := schemelessUrl l
  let s1 := s0.takeWhile fun c => !(c == '/' || c == '?' || c == '#')
  let s2 := afterLast '@' s1
  s2.takeWhile fun c => c != ':'

/-- Splits a character list on `.` into labels, as Python's
`host.split(".")` (so the empty list yields one empty label). -/
def splitLabels : List Char → List (List Char)
  | [] => [[]]
  | c :: rest =>
    if c = '.' then [] :: splitLabels rest
    else
      match splitLabels rest with
      | [] => [[c]]
      | a :: as => (c :: a) :: as

/-- Joins labels with `.`, inverse of `splitLabels` on dot-free labels. -/
def intercalateDots : List (List Char) → List Char
  | [] => []
  | [a] => a
  | a :: b :: rest => a ++ '.' :: intercalateDots (b :: rest)

/-- Public suffix list (each entry is a list of labels), restricted to
the suffixes exercised by this repository and its spec examples. -/
def psl : List (List (List Char)) :=
  [["com".data], ["org".data], ["net".data], ["io".data], ["gov".data],
   ["edu".data], ["uk".data], ["co".data, "uk".data],
   ["org".data, "uk".data], ["ac".data, "uk".data],
   ["jp".data], ["co".data, "jp".data]]

/-- Length (in labels) of the longest suffix of `labels` that occurs in
the public suffix list, or `0` when no suffix matches. -/
def suffixMatchLen : List (List Char) → Nat
  | [] => 0
  | a :: rest =>
    if a :: rest ∈ psl then (a :: rest).length
    else suffixMatchLen rest

/-- The registrable domain of a URL (tldextract's `registered_domain`):
the label immediately before the longest public-suffix match, joined to
that suffix; empty when there is no suffix match, no preceding label, or
the preceding label is empty. -/
def registeredDomain (l : List Char) : List Char :=
  let labels := splitLabels (lenient_netloc l)
  let n := labels.length
  let k := suffixMatchLen labels
  if k = 0 then []
  else if n ≤ k then []
  else
    let dom := (labels.drop (n - k - 1)).headD []
    if dom = [] then [] else intercalateDots (labels.drop (n - k - 1))

/-- Embeds `extract_domain` (src/monitor.py lines 77-86):
`tldextract.extract(url).registered_domain`. -/
def extract_domain (url : String) : String :=
  String.mk (registeredDomain url.data)

/-- Python's `s.split("//")`: split on every non-overlapping occurrence
of `//`, scanning left to right. -/
def splitOnDslash : List Char → List (List Char)
  | [] => [[]]
  | [c] => [[c]]
  | c :: d :: rest =>
    if c = '/' ∧ d = '/' then [] :: splitOnDslash rest
    else
      match splitOnDslash (d :: rest) with
      | [] => [[c]]
      | a :: as => (c :: a) :: as

/-- Embeds the domain key of src/main.py line 48:
`endpoint["url"].split("//")[-1].split("/")[0]`. -/
def mainDomainKey (url : String) : String :=
  String.mk (((splitOnDslash url.data).getLastD []).takeWhile fun c => c != '/')

/-! The availability aggregator.

`domain_stats` is a `defaultdict` mapping each domain key to its mutable
`{"up": u, "total": t}` counters (src/monitor.py line 95).  Python dicts
preserve insertion order, so the model is an association list with new
keys appended at the end. -/

/-- Per-domain counter table: `(domain, (up, total))` in insertion order. -/
abbrev DomainStats := List (String × (Nat × Nat))

/-- One aggregator update (src/monitor.py lines 103-106): increment the
domain's `total` counter, and its `up` counter when the probe result is
UP; a `defaultdict` creates the `{"up": 0, "total": 0}` entry on first
access. -/
def record (stats : DomainStats) (domain : String) (isUp : Bool) : DomainStats :=
  match stats with
  | [] => [(domain, ((if isUp then 1 else 0), 1))]
  | (k, (u, t)) :: rest =>
    if k = domain then (k, ((if isUp then u + 1 else u), t + 1)) :: rest
    else (k, (u, t)) :: record rest domain isUp

/-- Reads a domain's counters, `(0, 0)` when the domain has no entry. -/
def statsLookup (stats : DomainStats) (domain : String) : Nat × Nat :=
  match stats with
  | [] => (0, 0)
  | (k, v) :: rest => if k = domain then v else statsLookup rest domain

/-- Number of entries of the table carrying the given domain key. -/
def keyCount (stats : DomainStats) (domain : String) : Nat :=
  (stats.filter fun p => p.1 == domain).length

/-- Folds a sequence of `record` operations over the table. -/
def applyRecords (events : List (String × Bool)) (stats : DomainStats) : DomainStats :=
  events.foldl (fun s e => record s e.1 e.2) stats

/-- Number of events of the sequence recorded for the given domain. -/
def totalCount (events : List (String × Bool)) (domain : String) : Nat :=
  (events.filter fun e => e.1 == domain).length

/-- Number of UP events of the sequence recorded for the given domain. -/
def upCount (events : List (String × Bool)) (domain : String) : Nat :=
  (events.filter fun e => e.1 == domain && e.2).length

/-- Python 3 `round` on an exact rational: round half to even. -/
def pyRound (q : ℚ) : ℤ :=
  let f : ℤ := q.floor
  let frac : ℚ := q - f
  if frac < 1 / 2 then f
  else if 1 / 2 < frac then f + 1
  else if f % 2 = 0 then f else f + 1

/-- One reported line (src/monitor.py lines 110-113):
`availability = round(100 * stats["up"] / stats["total"])` followed by
the f-string print.  Division by a zero `total` would raise
`ZeroDivisionError`. -/
def availabilityLine (domain : String) (u t : Nat) : Except PyErr String :=
  if t = 0 then .error .zeroDivisionError
  else .ok (domain ++ " has " ++ toString (pyRound ((100 * u : ℚ) / t)) ++ "% availability percentage")

/-- The reporting step of one cycle: one availability line per domain in
table (insertion) order, then the `---` separator. -/
def report : DomainStats → Except PyErr (List String)
  | [] => .ok ["---"]
  | (d, (u, t)) :: rest =>
    match availabilityLine d u t with
    | .error e => .error e
    | .ok line =>
      match report rest with
      | .error e => .error e
      | .ok lines => .ok (line :: lines)

/-- Outcome of one sweep over the config: probes actually issued, the
counter table, and the first uncaught exception, if any. -/
structure SweepResult where
  probes : Nat
  stats : DomainStats
  err : Option PyErr

/-- One sweep over the config (src/monitor.py lines 98-106): for each
endpoint in listed order, `endpoint["url"]` (raising `KeyError` when
absent, which aborts the loop), then the probe, then the aggregator
update.  `oracle i` is the network outcome of the `i`-th probe of the
run. -/
def sweep (oracle : Nat → HttpOutcome) : List Endpoint → Nat → DomainStats → SweepResult
  | [], _, stats => ⟨0, stats, none⟩
  | e :: rest, i, stats =>
    match e.url with
    | none => ⟨0, stats, some .keyError⟩
    | some u =>
      match check_health e (oracle i) with
      | .error err => ⟨1, stats, some err⟩
      | .ok result =>
        let stats1 := record stats (extract_domain u) (result == "UP")
        let r := sweep oracle rest (i + 1) stats1
        ⟨r.probes + 1, r.stats, r.err⟩

/-- Cumulative outcome of a bounded run of the monitoring loop. -/
structure LoopResult where
  probes : Nat
  output : List String
  stats : DomainStats
  err : Option PyErr

/-- A bounded unrolling of the infinite `while True` loop (src/monitor.py
lines 97-117): `cycles` many sweep-report iterations (the `time.sleep(15)`
between cycles has no observable effect in the model).  An uncaught
exception stops the run at the point it is raised. -/
def runCycles (oracle : Nat → HttpOutcome) (config : List Endpoint) : Nat → Nat → DomainStats → LoopResult
  | 0, _, stats => ⟨0, [], stats, none⟩
  | n + 1, i, stats =>
    let s := sweep oracle config i stats
    match s.err with
    | some e => ⟨s.probes, [], s.stats, some e⟩
    | none =>
      match report s.stats with
      | .error e => ⟨s.probes, [], s.stats, some e⟩
      | .ok lines =>
        let r := runCycles oracle config n (i + config.length) s.stats
        ⟨s.probes + r.probes, lines ++ r.output, r.stats, r.err⟩

/-- Result of `load_config` (src/monitor.py lines 21-27): the parsed
config list, or a raised `OSError` (file missing/unreadable), or a raised
`yaml.YAMLError` (malformed YAML). -/
inductive ConfigLoad where
  | ok (config : List Endpoint)
  | readError
  | parseError

/-- Observable outcome of `monitor_endpoints`: probes issued, stdout
lines, schema errors logged, final counter table, uncaught exception. -/
structure RunResult where
  probes : Nat
  output : List String
  schemaLog : List String
  stats : DomainStats
  err : Option PyErr

/-- Embeds `monitor_endpoints` (src/monitor.py lines 89-117) run for a
bounded number of cycles: `load_config` (whose exceptions propagate
immediately, before any probe or print), then `check_schema` (log-only),
then the monitoring loop.  In `__main__` (lines 122-141) only
`KeyboardInterrupt` is caught, so a `some e` in `err` means the process
aborts with that exception. -/
def monitor_endpoints (load : ConfigLoad) (oracle : Nat → HttpOutcome) (cycles : Nat) : RunResult :=
  match load with
  | .readError => ⟨0, [], [], [], some .osError⟩
  | .parseError => ⟨0, [], [], [], some .yamlError⟩
  | .ok config =>
    let log := (check_schema config).toList
    let r := runCycles oracle config cycles 0 []
    ⟨r.probes, r.output, log, r.stats, r.err⟩

/-! Helper lemmas. -/

/-- The computable `Rat.floor` agrees with `Int.floor` on `ℚ`. -/
theorem ratFloor_eq (q : ℚ) : (q.floor : ℤ) = Int.floor q := by
  rw [Rat.floor_def', Rat.floor_def]

theorem mem_afterLast {c x : Char} {l : List Char} (h : x ∈ afterLast c l) :
    x ∈ l ∧ x ≠ c := by
  unfold afterLast at h
  rw [List.mem_reverse] at h
  have h1 := List.takeWhile_subset _ h
  have h2 := List.mem_takeWhile_imp h
  exact ⟨List.mem_reverse.mp h1, by simpa using h2⟩

theorem afterLast_eq_self {c : Char} {l : List Char} (h : c ∉ l) : afterLast c l = l := by
  unfold afterLast
  rw [List.takeWhile_eq_self_iff.mpr, List.reverse_reverse]
  intro x hx
  simp only [bne_iff_ne, ne_eq]
  rintro rfl
  exact h (List.mem_reverse.mp hx)

theorem findDslash_eq_none {l : List Char} (h : '/' ∉ l) : findDslash l = none := by
  induction l with
  | nil => rfl
  | cons a t ih =>
    cases t with
    | nil => rfl
    | cons b t2 =>
      have ha : a ≠ '/' := fun e => h (e ▸ List.mem_cons_self a _)
      have ht : '/' ∉ b :: t2 := fun m => h (List.mem_cons_of_mem _ m)
      simp [findDslash, ih ht, ha]

theorem schemelessUrl_eq_self {l : List Char} (h : '/' ∉ l) : schemelessUrl l = l := by
  unfold schemelessUrl
  rw [findDslash_eq_none h]

theorem mem_lenient_netloc {l : List Char} {c : Char} (hc : c ∈ lenient_netloc l) :
    c ≠ '/' ∧ c ≠ '?' ∧ c ≠ '#' ∧ c ≠ '@' ∧ c ≠ ':' := by
  unfold lenient_netloc at hc
  have h3 := List.mem_takeWhile_imp hc
  have hc2 := List.takeWhile_subset _ hc
  obtain ⟨hc1, hat⟩ := mem_afterLast hc2
  have h1 := List.mem_takeWhile_imp hc1
  simp only [Bool.not_eq_eq_eq_not, Bool.not_true, Bool.or_eq_false_iff, beq_eq_false_iff_ne,
    ne_eq] at h1
  refine ⟨h1.1.1, h1.1.2, h1.2, hat, by simpa using h3⟩

theorem lenient_netloc_eq_self {l : List Char}
    (h : ∀ c ∈ l, c ≠ '/' ∧ c ≠ '?' ∧ c ≠ '#' ∧ c ≠ '@' ∧ c ≠ ':') :
    lenient_netloc l = l := by
  have hslash : '/' ∉ l := fun hm => (h _ hm).1 rfl
  have h1 : (l.takeWhile fun c => !(c == '/' || c == '?' || c == '#')) = l := by
    rw [List.takeWhile_eq_self_iff]
    intro x hx
    obtain ⟨a, b, c', _, _⟩ := h x hx
    simp [a, b, c']
  have h2 : afterLast '@' l = l := afterLast_eq_self (fun hm => (h _ hm).2.2.2.1 rfl)
  have h3 : (l.takeWhile fun c => c != ':') = l := by
    rw [List.takeWhile_eq_self_iff]
    intro x hx
    simpa using (h x hx).2.2.2.2
  simp only [lenient_netloc]
  rw [schemelessUrl_eq_self hslash, h1, h2, h3]

theorem splitLabels_ne_nil (l : List Char) : splitLabels l ≠ [] := by
  induction l with
  | nil => simp [splitLabels]
  | cons c rest ih =>
    by_cases hc : c = '.'
    · simp [splitLabels, if_pos hc]
    · simp only [splitLabels, if_neg hc]
      cases h : splitLabels rest with
      | nil => exact absurd h ih
      | cons a as => simp

theorem mem_splitLabels {l : List Char} :
    ∀ {lab : List Char} {c : Char}, lab ∈ splitLabels l → c ∈ lab → c ∈ l ∧ c ≠ '.' := by
  induction l with
  | nil =>
    intro lab c hl hc
    simp only [splitLabels, List.mem_singleton] at hl
    subst hl
    simp at hc
  | cons a rest ih =>
    intro lab c hl hc
    by_cases ha : a = '.'
    · simp only [splitLabels, if_pos ha] at hl
      rcases List.mem_cons.mp hl with h | h
      · subst h; simp at hc
      · obtain ⟨h1, h2⟩ := ih h hc
        exact ⟨List.mem_cons_of_mem _ h1, h2⟩
    · simp only [splitLabels, if_neg ha] at hl
      cases hsr : splitLabels rest with
      | nil => exact absurd hsr (splitLabels_ne_nil rest)
      | cons b bs =>
        rw [hsr] at hl
        rcases List.mem_cons.mp hl with h | h
        · subst h
          rcases List.mem_cons.mp hc with h | h
          · subst h; exact ⟨List.mem_cons_self _ _, ha⟩
          · have hb : b ∈ splitLabels rest := by rw [hsr]; exact List.mem_cons_self _ _
            obtain ⟨h1, h2⟩ := ih hb h
            exact ⟨List.mem_cons_of_mem _ h1, h2⟩
        · have hbs : lab ∈ splitLabels rest := by rw [hsr]; exact List.mem_cons_of_mem _ h
          obtain ⟨h1, h2⟩ := ih hbs hc
          exact ⟨List.mem_cons_of_mem _ h1, h2⟩

theorem splitLabels_no_dot {x : List Char} (h : '.' ∉ x) : splitLabels x = [x] := by
  induction x with
  | nil => rfl
  | cons c rest ih =>
    have hc : c ≠ '.' := fun e => h (e ▸ List.mem_cons_self c rest)
    simp only [splitLabels, if_neg hc, ih (fun m => h (List.mem_cons_of_mem _ m))]

theorem splitLabels_append_dot {x t : List Char} (h : '.' ∉ x) :
    splitLabels (x ++ '.' :: t) = x :: splitLabels t := by
  induction x with
  | nil => simp [splitLabels]
  | cons c rest ih =>
    have hc : c ≠ '.' := fun e => h (e ▸ List.mem_cons_self c rest)
    simp only [List.cons_append, splitLabels, if_neg hc, List.append_eq,
      ih (fun m => h (List.mem_cons_of_mem _ m))]

theorem splitLabels_intercalateDots {L : List (List Char)} (hne : L ≠ [])
    (hdot : ∀ lab ∈ L, '.' ∉ lab) : splitLabels (intercalateDots L) = L := by
  induction L with
  | nil => exact absurd rfl hne
  | cons a L' ih =>
    cases L' with
    | nil => simpa [intercalateDots] using splitLabels_no_dot (hdot a (List.mem_cons_self _ _))
    | cons b L'' =>
      simp only [intercalateDots]
      rw [splitLabels_append_dot (hdot a (List.mem_cons_self _ _)),
        ih (by simp) (fun lab hm => hdot lab (List.mem_cons_of_mem _ hm))]

theorem mem_intercalateDots {L : List (List Char)} {c : Char} (h : c ∈ intercalateDots L) :
    c = '.' ∨ ∃ lab ∈ L, c ∈ lab := by
  induction L with
  | nil => simp [intercalateDots] at h
  | cons a L' ih =>
    cases L' with
    | nil =>
      right
      exact ⟨a, List.mem_cons_self _ _, by simpa [intercalateDots] using h⟩
    | cons b L'' =>
      simp only [intercalateDots] at h
      rcases List.mem_append.mp h with h | h
      · right; exact ⟨a, List.mem_cons_self _ _, h⟩
      · rcases List.mem_cons.mp h with h | h
        · left; exact h
        · rcases ih h with h | ⟨lab, hm, hcl⟩
          · left; exact h
          · right; exact ⟨lab, List.mem_cons_of_mem _ hm, hcl⟩

theorem psl_wf : ∀ e ∈ psl, e ≠ [] ∧ ∀ lab ∈ e, lab ≠ [] ∧ ∀ c ∈ lab,
    c ≠ '.' ∧ c ≠ '/' ∧ c ≠ '?' ∧ c ≠ '#' ∧ c ≠ '@' ∧ c ≠ ':' := by decide

theorem suffixMatchLen_le (labels : List (List Char)) :
    suffixMatchLen labels ≤ labels.length := by
  induction labels with
  | nil => simp [suffixMatchLen]
  | cons a rest ih =>
    simp only [suffixMatchLen]
    split
    · exact le_refl _
    · exact le_trans ih (by simp)

theorem suffixMatchLen_mem {labels : List (List Char)} (h : 0 < suffixMatchLen labels) :
    labels.drop (labels.length - suffixMatchLen labels) ∈ psl := by
  induction labels with
  | nil => simp [suffixMatchLen] at h
  | cons a rest ih =>
    by_cases hmem : a :: rest ∈ psl
    · simp only [suffixMatchLen, if_pos hmem, Nat.sub_self, List.drop_zero]
      exact hmem
    · simp only [suffixMatchLen, if_neg hmem] at h ⊢
      have hle := suffixMatchLen_le rest
      have hstep : (a :: rest).length - suffixMatchLen rest
          = (rest.length - suffixMatchLen rest) + 1 := by
        simp only [List.length_cons]
        omega
      rw [hstep, List.drop_succ_cons]
      exact ih h

theorem le_suffixMatchLen {labels : List (List Char)} {j : Nat} (hj : j ≤ labels.length)
    (h : labels.drop (labels.length - j) ∈ psl) : j ≤ suffixMatchLen labels := by
  induction labels with
  | nil =>
    simp only [List.length_nil, Nat.le_zero] at hj
    simp [suffixMatchLen, hj]
  | cons a rest ih =>
    by_cases hmem : a :: rest ∈ psl
    · simp only [suffixMatchLen, if_pos hmem]
      exact hj
    · simp only [suffixMatchLen, if_neg hmem]
      rcases Nat.lt_or_ge j (a :: rest).length with hlt | hge
      · have hj' : j ≤ rest.length := by
          simp only [List.length_cons] at hlt
          omega
        apply ih hj'
        have hstep : (a :: rest).length - j = (rest.length - j) + 1 := by
          simp only [List.length_cons]
          omega
        rw [hstep, List.drop_succ_cons] at h
        exact h
      · have hj2 : j = (a :: rest).length := le_antisymm hj hge
        rw [hj2, Nat.sub_self, List.drop_zero] at h
        exact absurd h hmem

/-- Characterization of the extractor's output: it is empty, or it is
`dom.sfx` where `dom` is a nonempty label free of URL separator
characters, `sfx` is a public suffix, and `dom :: sfx` itself is not a
public suffix (maximality of the matched suffix). -/
theorem registeredDomain_cases (l : List Char) :
    registeredDomain l = [] ∨
    ∃ dom sfx, registeredDomain l = intercalateDots (dom :: sfx) ∧ dom ≠ [] ∧
      sfx ∈ psl ∧ dom :: sfx ∉ psl ∧
      ∀ c ∈ dom, c ≠ '.' ∧ c ≠ '/' ∧ c ≠ '?' ∧ c ≠ '#' ∧ c ≠ '@' ∧ c ≠ ':' := by
  unfold registeredDomain
  by_cases hk0 : suffixMatchLen (splitLabels (lenient_netloc l)) = 0
  · left; rw [if_pos hk0]
  rw [if_neg hk0]
  by_cases hnk : (splitLabels (lenient_netloc l)).length
      ≤ suffixMatchLen (splitLabels (lenient_netloc l))
  · left; rw [if_pos hnk]
  rw [if_neg hnk]
  set labels := splitLabels (lenient_netloc l) with hlabels
  set n := labels.length with hn
  set k := suffixMatchLen labels with hk
  cases hdrop : labels.drop (n - k - 1) with
  | nil => left; rfl
  | cons dom sfx =>
    simp only [List.headD_cons]
    by_cases hdome : dom = []
    · left; rw [if_pos hdome]
    rw [if_neg hdome]
    right
    have hkn : k < n := lt_of_not_le hnk
    have hsfx : sfx = labels.drop (n - k) := by
      have h1 : (labels.drop (n - k - 1)).tail = labels.drop (n - k - 1 + 1) :=
        List.tail_drop labels (n - k - 1)
      have h2 : n - k - 1 + 1 = n - k := by omega
      rw [hdrop] at h1
      rw [← h2]
      exact h1
    refine ⟨dom, sfx, rfl, hdome, ?_, ?_, ?_⟩
    · rw [hsfx]
      exact suffixMatchLen_mem (Nat.pos_of_ne_zero hk0)
    · intro habs
      have hj : k + 1 ≤ n := hkn
      have hd2 : labels.drop (n - (k + 1)) = dom :: sfx := by
        have : n - (k + 1) = n - k - 1 := by omega
        rw [this, hdrop]
      have := le_suffixMatchLen hj (hd2 ▸ habs)
      omega
    · intro c hc
      have hdommem : dom ∈ labels := by
        have : dom ∈ labels.drop (n - k - 1) := by rw [hdrop]; exact List.mem_cons_self _ _
        exact List.drop_subset _ _ this
      obtain ⟨hcl, hcd⟩ := mem_splitLabels hdommem hc
      obtain ⟨h1, h2, h3, h4, h5⟩ := mem_lenient_netloc hcl
      exact ⟨hcd, h1, h2, h3, h4, h5⟩

/-- The extractor is the identity on a well-formed registrable domain
`dom.sfx` whose full label list is not itself a public suffix. -/
theorem registeredDomain_fix {dom : List Char} {sfx : List (List Char)} (hdome : dom ≠ [])
    (hchars : ∀ c ∈ dom, c ≠ '.' ∧ c ≠ '/' ∧ c ≠ '?' ∧ c ≠ '#' ∧ c ≠ '@' ∧ c ≠ ':')
    (hsfx : sfx ∈ psl) (hnot : dom :: sfx ∉ psl) :
    registeredDomain (intercalateDots (dom :: sfx)) = intercalateDots (dom :: sfx) := by
  have hsfxwf := psl_wf sfx hsfx
  have hrchars : ∀ c ∈ intercalateDots (dom :: sfx),
      c ≠ '/' ∧ c ≠ '?' ∧ c ≠ '#' ∧ c ≠ '@' ∧ c ≠ ':' := by
    intro c hc
    rcases mem_intercalateDots hc with h | ⟨lab, hm, hcl⟩
    · subst h
      refine ⟨by decide, by decide, by decide, by decide, by decide⟩
    · rcases List.mem_cons.mp hm with h | h
      · subst h
        obtain ⟨_, h1, h2, h3, h4, h5⟩ := hchars c hcl
        exact ⟨h1, h2, h3, h4, h5⟩
      · obtain ⟨_, hlab⟩ := hsfxwf.2 lab h
        obtain ⟨_, h1, h2, h3, h4, h5⟩ := hlab c hcl
        exact ⟨h1, h2, h3, h4, h5⟩
  have hnet : lenient_netloc (intercalateDots (dom :: sfx)) = intercalateDots (dom :: sfx) :=
    lenient_netloc_eq_self hrchars
  have hdots : ∀ lab ∈ dom :: sfx, '.' ∉ lab := by
    intro lab hm hdotmem
    rcases List.mem_cons.mp hm with h | h
    · subst h; exact (hchars _ hdotmem).1 rfl
    · exact ((hsfxwf.2 lab h).2 _ hdotmem).1 rfl
  have hlabels : splitLabels (intercalateDots (dom :: sfx)) = dom :: sfx :=
    splitLabels_intercalateDots (by simp) hdots
  have hsfxne : sfx ≠ [] := hsfxwf.1
  have hsml : suffixMatchLen (dom :: sfx) = sfx.length := by
    simp only [suffixMatchLen, if_neg hnot]
    cases sfx with
    | nil => exact absurd rfl hsfxne
    | cons s ss => simp only [suffixMatchLen, if_pos hsfx]
  simp only [registeredDomain]
  rw [hnet, hlabels, hsml]
  have hkpos : sfx.length ≠ 0 := by
    intro h
    exact hsfxne (List.length_eq_zero.mp h)
  rw [if_neg hkpos]
  have hnk : ¬ ((dom :: sfx).length ≤ sfx.length) := by simp
  rw [if_neg hnk]
  have hdz : (dom :: sfx).length - sfx.length - 1 = 0 := by simp
  rw [hdz, List.drop_zero]
  simp only [List.headD_cons]
  rw [if_neg hdome]

theorem registeredDomain_nil : registeredDomain [] = [] := by rfl

theorem registeredDomain_idem (l : List Char) :
    registeredDomain (registeredDomain l) = registeredDomain l := by
  rcases registeredDomain_cases l with h | ⟨dom, sfx, heq, hne, hsfx, hnot, hchars⟩
  · rw [h, registeredDomain_nil]
  · rw [heq]
    exact registeredDomain_fix hne hchars hsfx hnot

theorem statsLookup_record_self (s : DomainStats) (d : String) (b : Bool) :
    statsLookup (record s d b) d
      = ((statsLookup s d).1 + (if b then 1 else 0), (statsLookup s d).2 + 1) := by
  induction s with
  | nil =>
    simp only [record, statsLookup, if_pos rfl]
    cases b <;> simp
  | cons hd rest ih =>
    obtain ⟨k, u, t⟩ := hd
    by_cases hk : k = d
    · subst hk
      simp only [record, statsLookup, if_pos rfl]
      cases b <;> simp
    · simp only [record, statsLookup, if_neg hk, ih]

theorem statsLookup_record_other (s : DomainStats) (d dq : String) (b : Bool)
    (h : dq ≠ d) : statsLookup (record s d b) dq = statsLookup s dq := by
  induction s with
  | nil =>
    simp only [record, statsLookup, if_neg (fun e : d = dq => h e.symm)]
  | cons hd rest ih =>
    obtain ⟨k, u, t⟩ := hd
    by_cases hk : k = d
    · subst hk
      simp only [record, if_pos rfl, statsLookup, if_neg (fun e : k = dq => h e.symm)]
    · simp only [record, statsLookup, if_neg hk]
      by_cases hq : k = dq
      · rw [if_pos hq, if_pos hq]
      · rw [if_neg hq, if_neg hq, ih]

theorem statsLookup_applyRecords (events : List (String × Bool)) (d : String) :
    ∀ s : DomainStats,
      statsLookup (applyRecords events s) d
        = ((statsLookup s d).1 + upCount events d, (statsLookup s d).2 + totalCount events d) := by
  induction events with
  | nil => intro s; simp [applyRecords, upCount, totalCount]
  | cons e evs ih =>
    intro s
    obtain ⟨d', b⟩ := e
    have happ : applyRecords ((d', b) :: evs) s = applyRecords evs (record s d' b) := rfl
    rw [happ, ih (record s d' b)]
    by_cases hd : d' = d
    · subst hd
      rw [statsLookup_record_self]
      simp only [upCount, totalCount, List.filter]
      cases b <;> simp [List.filter] <;> omega
    · rw [statsLookup_record_other _ _ _ _ (fun e => hd e.symm)]
      simp only [upCount, totalCount, List.filter]
      have hbeq : (d' == d) = false := beq_eq_false_iff_ne.mpr hd
      simp [hbeq]

/-- Every probe of an endpoint whose dict has a url key completes without
an exception and returns a Boolean classification. -/
theorem check_health_ok (e : Endpoint) (u : String) (o : HttpOutcome) (h : e.url = some u) :
    ∃ b : Bool, check_health e o = .ok (if b then "UP" else "DOWN") := by
  cases o with
  | response s =>
    by_cases hs : 200 ≤ s ∧ s < 300
    · exact ⟨true, by simp [check_health, h, if_pos hs]⟩
    · exact ⟨false, by simp [check_health, h, if_neg hs]⟩
  | requestException => exact ⟨false, by simp [check_health, h]⟩

/-- Entry-wise invariants are preserved from a state through a sweep,
provided `record` preserves them. -/
theorem sweep_preserves {P : String × (Nat × Nat) → Prop}
    (hrec : ∀ s d b, (∀ p ∈ s, P p) → ∀ p ∈ record s d b, P p)
    (oracle : Nat → HttpOutcome) :
    ∀ (cfg : List Endpoint) (i : Nat) (s : DomainStats),
      (∀ p ∈ s, P p) → ∀ p ∈ (sweep oracle cfg i s).stats, P p := by
  intro cfg
  induction cfg with
  | nil => intro i s hs; simpa [sweep] using hs
  | cons e rest ih =>
    intro i s hs
    cases hu : e.url with
    | none => simpa [sweep, hu] using hs
    | some u =>
      obtain ⟨b, hb⟩ := check_health_ok e u (oracle i) hu
      simp only [sweep, hu, hb]
      exact ih (i + 1) _ (hrec _ _ _ hs)

theorem record_preserves_le (s : DomainStats) (d : String) (b : Bool)
    (hs : ∀ p ∈ s, p.2.1 ≤ p.2.2) : ∀ p ∈ record s d b, p.2.1 ≤ p.2.2 := by
  induction s with
  | nil =>
    intro p hp
    simp only [record, List.mem_singleton] at hp
    subst hp
    cases b <;> simp
  | cons hd rest ih =>
    obtain ⟨k, u, t⟩ := hd
    intro p hp
    have hhd : u ≤ t := hs (k, u, t) (List.mem_cons_self _ _)
    by_cases hk : k = d
    · subst hk
      simp only [record, if_pos rfl] at hp
      rcases List.mem_cons.mp hp with h | h
      · subst h; cases b <;> simp <;> omega
      · exact hs p (List.mem_cons_of_mem _ h)
    · simp only [record, if_neg hk] at hp
      rcases List.mem_cons.mp hp with h | h
      · subst h; exact hhd
      · exact ih (fun q hq => hs q (List.mem_cons_of_mem _ hq)) p h

theorem record_preserves_pos (s : DomainStats) (d : String) (b : Bool)
    (hs : ∀ p ∈ s, 1 ≤ p.2.2) : ∀ p ∈ record s d b, 1 ≤ p.2.2 := by
  induction s with
  | nil =>
    intro p hp
    simp only [record, List.mem_singleton] at hp
    subst hp
    simp
  | cons hd rest ih =>
    obtain ⟨k, u, t⟩ := hd
    intro p hp
    have hhd : 1 ≤ t := hs (k, u, t) (List.mem_cons_self _ _)
    by_cases hk : k = d
    · subst hk
      simp only [record, if_pos rfl] at hp
      rcases List.mem_cons.mp hp with h | h
      · subst h; simp
      · exact hs p (List.mem_cons_of_mem _ h)
    · simp only [record, if_neg hk] at hp
      rcases List.mem_cons.mp hp with h | h
      · subst h; exact hhd
      · exact ih (fun q hq => hs q (List.mem_cons_of_mem _ hq)) p h

/-- When every domain of the table has received at least one probe, the
reporting step succeeds (no `ZeroDivisionError`). -/
theorem report_ok (s : DomainStats) (hs : ∀ p ∈ s, 1 ≤ p.2.2) :
    ∃ lines, report s = .ok lines := by
  induction s with
  | nil => exact ⟨["---"], rfl⟩
  | cons hd rest ih =>
    obtain ⟨d, u, t⟩ := hd
    have ht : t ≠ 0 := by
      have h1 : 1 ≤ t := hs (d, u, t) (List.mem_cons_self _ _)
      omega
    obtain ⟨lines, hlines⟩ := ih (fun q hq => hs q (List.mem_cons_of_mem _ hq))
    exact ⟨(d ++ " has " ++ toString (pyRound ((100 * u : ℚ) / t)) ++ "% availability percentage")
      :: lines, by simp only [report, availabilityLine, if_neg ht, hlines]⟩

/-- A sweep can only raise `KeyError` (from `endpoint["url"]`). -/
theorem sweep_err_cases (oracle : Nat → HttpOutcome) :
    ∀ (cfg : List Endpoint) (i : Nat) (s : DomainStats),
      (sweep oracle cfg i s).err = none ∨ (sweep oracle cfg i s).err = some .keyError := by
  intro cfg
  induction cfg with
  | nil => intro i s; left; rfl
  | cons e rest ih =>
    intro i s
    cases hu : e.url with
    | none => right; simp [sweep, hu]
    | some u =>
      obtain ⟨b, hb⟩ := check_health_ok e u (oracle i) hu
      simp only [sweep, hu, hb]
      exact ih (i + 1) _

theorem runCycles_preserves {P : String × (Nat × Nat) → Prop}
    (hrec : ∀ s d b, (∀ p ∈ s, P p) → ∀ p ∈ record s d b, P p)
    (oracle : Nat → HttpOutcome) (cfg : List Endpoint) :
    ∀ (n i : Nat) (s : DomainStats),
      (∀ p ∈ s, P p) → ∀ p ∈ (runCycles oracle cfg n i s).stats, P p := by
  intro n
  induction n with
  | zero => intro i s hs; simpa [runCycles] using hs
  | succ m ih =>
    intro i s hs
    have hsw : ∀ p ∈ (sweep oracle cfg i s).stats, P p := sweep_preserves hrec oracle cfg i s hs
    simp only [runCycles]
    cases herr : (sweep oracle cfg i s).err with
    | some e => simpa using hsw
    | none =>
      cases hrep : report (sweep oracle cfg i s).stats with
      | error e => simpa using hsw
      | ok lines => simpa using ih (i + cfg.length) _ hsw

theorem runCycles_err (oracle : Nat → HttpOutcome) (cfg : List Endpoint) :
    ∀ (n i : Nat) (s : DomainStats), (∀ p ∈ s, 1 ≤ p.2.2) →
      (runCycles oracle cfg n i s).err ≠ some .zeroDivisionError := by
  intro n
  induction n with
  | zero => intro i s _; simp [runCycles]
  | succ m ih =>
    intro i s hs
    have hsw : ∀ p ∈ (sweep oracle cfg i s).stats, 1 ≤ p.2.2 :=
      sweep_preserves record_preserves_pos oracle cfg i s hs
    simp only [runCycles]
    cases herr : (sweep oracle cfg i s).err with
    | some e =>
      rcases sweep_err_cases oracle cfg i s with h | h
      · rw [h] at herr; exact absurd herr (by simp)
      · rw [h] at herr
        injection herr with he
        subst he
        simp
    | none =>
      obtain ⟨lines, hlines⟩ := report_ok _ hsw
      rw [hlines]
      simpa using ih (i + cfg.length) _ hsw

theorem statsLookup_le_record (s : DomainStats) (d dq : String) (b : Bool) :
    (statsLookup s dq).1 ≤ (statsLookup (record s d b) dq).1 ∧
    (statsLookup s dq).2 ≤ (statsLookup (record s d b) dq).2 := by
  by_cases h : dq = d
  · subst h
    rw [statsLookup_record_self]
    exact ⟨Nat.le_add_right _ _, Nat.le_add_right _ _⟩
  · rw [statsLookup_record_other _ _ _ _ h]
    exact ⟨le_refl _, le_refl _⟩

theorem statsLookup_le_sweep (oracle : Nat → HttpOutcome) :
    ∀ (cfg : List Endpoint) (i : Nat) (s : DomainStats) (dq : String),
      (statsLookup s dq).1 ≤ (statsLookup (sweep oracle cfg i s).stats dq).1 ∧
      (statsLookup s dq).2 ≤ (statsLookup (sweep oracle cfg i s).stats dq).2 := by
  intro cfg
  induction cfg with
  | nil => intro i s dq; simp [sweep]
  | cons e rest ih =>
    intro i s dq
    cases hu : e.url with
    | none => simp [sweep, hu]
    | some u =>
      obtain ⟨b, hb⟩ := check_health_ok e u (oracle i) hu
      simp only [sweep, hu, hb]
      obtain ⟨h1, h2⟩ := statsLookup_le_record s (extract_domain u)
        dq ((if b then "UP" else "DOWN") == "UP")
      obtain ⟨h3, h4⟩ := ih (i + 1) (record s (extract_domain u)
        ((if b then "UP" else "DOWN") == "UP")) dq
      exact ⟨le_trans h1 h3, le_trans h2 h4⟩

theorem statsLookup_le_runCycles (oracle : Nat → HttpOutcome) (cfg : List Endpoint) :
    ∀ (n i : Nat) (s : DomainStats) (dq : String),
      (statsLookup s dq).1 ≤ (statsLookup (runCycles oracle cfg n i s).stats dq).1 ∧
      (statsLookup s dq).2 ≤ (statsLookup (runCycles oracle cfg n i s).stats dq).2 := by
  intro n
  induction n with
  | zero => intro i s dq; simp [runCycles]
  | succ m ih =>
    intro i s dq
    obtain ⟨h1, h2⟩ := statsLookup_le_sweep oracle cfg i s dq
    simp only [runCycles]
    cases herr : (sweep oracle cfg i s).err with
    | some e => exact ⟨h1, h2⟩
    | none =>
      cases hrep : report (sweep oracle cfg i s).stats with
      | error e => exact ⟨h1, h2⟩
      | ok lines =>
        obtain ⟨h3, h4⟩ := ih (i + cfg.length) (sweep oracle cfg i s).stats dq
        exact ⟨le_trans h1 h3, le_trans h2 h4⟩

theorem pyRound_bounds {q : ℚ} (h0 : 0 ≤ q) (h1 : q ≤ 100) :
    0 ≤ pyRound q ∧ pyRound q ≤ 100 := by
  have hfl : (Int.floor q : ℚ) ≤ q := Int.floor_le q
  have hfl0 : 0 ≤ Int.floor q := Int.floor_nonneg.mpr h0
  have hfl100 : Int.floor q ≤ 100 := by
    have h2 := Int.floor_le_floor h1
    simpa using h2
  simp only [pyRound, ratFloor_eq]
  split_ifs with hc1 hc2 hc3
  · exact ⟨hfl0, hfl100⟩
  · have hge : 1 / 2 ≤ q - (Int.floor q : ℚ) := not_lt.mp hc1
    have hlt : Int.floor q < 100 := by
      have h3 : (Int.floor q : ℚ) < 100 := by linarith
      exact_mod_cast h3
    omega
  · exact ⟨hfl0, hfl100⟩
  · have hge : 1 / 2 ≤ q - (Int.floor q : ℚ) := not_lt.mp hc1
    have hlt : Int.floor q < 100 := by
      have h3 : (Int.floor q : ℚ) < 100 := by linarith
      exact_mod_cast h3
    omega

theorem pyRound_availability_bounds {u t : ℕ} (hut : u ≤ t) (ht : 1 ≤ t) :
    0 ≤ pyRound ((100 * u : ℚ) / t) ∧ pyRound ((100 * u : ℚ) / t) ≤ 100 := by
  have ht0 : (0 : ℚ) < t := by
    have h2 : (1 : ℚ) ≤ t := by exact_mod_cast ht
    linarith
  apply pyRound_bounds
  · apply div_nonneg _ ht0.le
    positivity
  · rw [div_le_iff₀ ht0]
    have h3 : (u : ℚ) ≤ t := by exact_mod_cast hut
    linarith

/-! Claim theorems. -/

/-- C1: for every HTTP response with status code `s` received by
`check_health`, the probe is classified UP iff `200 <= s < 300`, and DOWN
for every other status code. -/
theorem c1_status_classification (e : Endpoint) (u : String) (s : Nat)
    (h : e.url = some u) :
    (check_health e (.response s) = .ok "UP" ↔ 200 ≤ s ∧ s < 300) ∧
    (¬(200 ≤ s ∧ s < 300) → check_health e (.response s) = .ok "DOWN") := by
  constructor
  · constructor
    · intro hup
      by_contra hn
      simp [check_health, h, if_neg hn] at hup
    · intro hs
      simp [check_health, h, if_pos hs]
  · intro hn
    simp [check_health, h, if_neg hn]

/-- C1 witness: status 204 is classified UP, 404 and 301 DOWN. -/
theorem c1_status_classification_witness :
    check_health { name := some "w", url := some "http://example.com" } (.response 204) = .ok "UP" ∧
    check_health { name := some "w", url := some "http://example.com" } (.response 404) = .ok "DOWN" ∧
    check_health { name := some "w", url := some "http://example.com" } (.response 301) = .ok "DOWN" :=
  ⟨(c1_status_classification _ "http://example.com" 204 rfl).1.mpr (by decide),
   (c1_status_classification _ "http://example.com" 404 rfl).2 (by decide),
   (c1_status_classification _ "http://example.com" 301 rfl).2 (by decide)⟩

/-- C2: for every valid Endpoint Definition (string url present),
`check_health` returns exactly one of UP/DOWN and never raises; every
network-level failure (`requests.RequestException`) yields DOWN. -/
theorem c2_check_health_total (e : Endpoint) (u : String) (o : HttpOutcome)
    (h : e.url = some u) :
    (check_health e o = .ok "UP" ∨ check_health e o = .ok "DOWN") ∧
    (∀ err : PyErr, check_health e o ≠ .error err) ∧
    check_health e .requestException = .ok "DOWN" := by
  refine ⟨?_, ?_, by simp [check_health, h]⟩
  · cases o with
    | response s =>
      by_cases hs : 200 ≤ s ∧ s < 300
      · left; simp [check_health, h, if_pos hs]
      · right; simp [check_health, h, if_neg hs]
    | requestException => right; simp [check_health, h]
  · intro err hcontra
    obtain ⟨b, hb⟩ := check_health_ok e u o h
    rw [hb] at hcontra
    exact Except.noConfusion hcontra

/-- C2 witness: a concrete valid endpoint, probed with a network failure,
yields DOWN without an exception. -/
theorem c2_check_health_total_witness :
    (check_health { name := some "w", url := some "http://example.com" } .requestException
        = .ok "UP" ∨
      check_health { name := some "w", url := some "http://example.com" } .requestException
        = .ok "DOWN") ∧
    (∀ err : PyErr, check_health { name := some "w", url := some "http://example.com" }
        .requestException ≠ .error err) ∧
    check_health { name := some "w", url := some "http://example.com" } .requestException
      = .ok "DOWN" :=
  c2_check_health_total _ "http://example.com" .requestException rfl

/-- C5: `extract_domain` is idempotent on every URL string, and
public-suffix-aware on the spec's two examples (ignoring scheme,
subdomain labels, port and path). -/
theorem c5_extract_domain_idempotent :
    (∀ u : String, extract_domain (extract_domain u) = extract_domain u) ∧
    extract_domain "https://api.shop.example.co.uk:8080/x" = "example.co.uk" ∧
    extract_domain "http://example.com/path" = "example.com" := by
  refine ⟨?_, by rfl, by rfl⟩
  intro u
  show String.mk (registeredDomain (String.mk (registeredDomain u.data)).data)
    = String.mk (registeredDomain u.data)
  rw [show (String.mk (registeredDomain u.data)).data = registeredDomain u.data from rfl,
    registeredDomain_idem]

/-- C7: if the config file is missing, unreadable, or fails to parse, the
process aborts before the monitoring loop starts: no probe is issued, no
availability line is printed, and the failure is an uncaught (fatal)
exception. -/
theorem c7_config_failure_fatal (load : ConfigLoad) (oracle : Nat → HttpOutcome)
    (cycles : Nat) (h : load = .readError ∨ load = .parseError) :
    (monitor_endpoints load oracle cycles).probes = 0 ∧
    (monitor_endpoints load oracle cycles).output = [] ∧
    (monitor_endpoints load oracle cycles).err.isSome := by
  rcases h with h | h <;> subst h <;> exact ⟨rfl, rfl, rfl⟩

/-- C7 witness: a concrete unreadable-config run issues no probe and
prints nothing. -/
theorem c7_config_failure_fatal_witness :
    (monitor_endpoints .readError (fun _ => .response 200) 3).probes = 0 ∧
    (monitor_endpoints .readError (fun _ => .response 200) 3).output = [] ∧
    (monitor_endpoints .readError (fun _ => .response 200) 3).err.isSome :=
  c7_config_failure_fatal .readError (fun _ => .response 200) 3 (Or.inl rfl)

/-- C10 counterexample: the naive key of src/main.py and the registrable
domain of src/monitor.py disagree on a URL with subdomains and a port, so
the two source files do not group probes under the same domain keys. -/
theorem c10_domain_keys_counterexample :
    mainDomainKey "https://api.shop.example.co.uk:8080/x"
      ≠ extract_domain "https://api.shop.example.co.uk:8080/x" := by decide

/-- C10 amended: src/main.py's key keeps subdomain labels and the port
(the substring after `//` up to the next `/`), while src/monitor.py's
`extract_domain` returns the registrable domain; they agree only when the
host part is exactly the registrable domain with no port. -/
theorem c10_domain_keys_amended :
    mainDomainKey "https://api.shop.example.co.uk:8080/x" = "api.shop.example.co.uk:8080" ∧
    extract_domain "https://api.shop.example.co.uk:8080/x" = "example.co.uk" ∧
    mainDomainKey "http://example.com/path" = extract_domain "http://example.com/path" := by
  exact ⟨by rfl, by rfl, by rfl⟩

/-- C3: after N `record` operations for a domain (N >= 1) of which U were
UP, the reported availability for that domain is `round(100*U/N)` with
Python's rounding; concretely 3 UP out of 4 gives 75 and 1 UP out of 3
gives 33. -/
theorem c3_availability_formula (events : List (String × Bool)) (d : String)
    (h : 1 ≤ totalCount events d) :
    statsLookup (applyRecords events []) d = (upCount events d, totalCount events d) ∧
    availabilityLine d (upCount events d) (totalCount events d)
      = .ok (d ++ " has "
          ++ toString (pyRound ((100 * upCount events d : ℚ) / totalCount events d))
          ++ "% availability percentage") ∧
    pyRound ((100 * 3 : ℚ) / 4) = 75 ∧
    pyRound ((100 * 1 : ℚ) / 3) = 33 := by
  refine ⟨?_, ?_, ?_, ?_⟩
  · rw [statsLookup_applyRecords]
    simp [statsLookup]
  · have ht : totalCount events d ≠ 0 := by omega
    simp [availabilityLine, if_neg ht]
  · have harg : (100 * 3 : ℚ) / 4 = ((75 : ℤ) : ℚ) := by norm_num
    simp only [pyRound, ratFloor_eq, harg, Int.floor_intCast]
    norm_num
  · have harg : (100 * 1 : ℚ) / 3 = ((100 : ℤ) : ℚ) / ((3 : ℕ) : ℚ) := by norm_num
    have hf : Int.floor (((100 : ℤ) : ℚ) / ((3 : ℕ) : ℚ)) = 33 := by
      rw [Rat.floor_intCast_div_natCast]; decide
    simp only [pyRound, ratFloor_eq, harg, hf]
    norm_num

/-- C3 witness: the event sequence with 3 UP probes out of 4 for one
domain yields counters (3, 4) and the 75 percent rounding. -/
theorem c3_availability_formula_witness :
    statsLookup (applyRecords [("example.com", true), ("example.com", true),
        ("example.com", false), ("example.com", true)] []) "example.com"
      = (upCount [("example.com", true), ("example.com", true),
          ("example.com", false), ("example.com", true)] "example.com",
         totalCount [("example.com", true), ("example.com", true),
          ("example.com", false), ("example.com", true)] "example.com") ∧
    upCount [("example.com", true), ("example.com", true),
        ("example.com", false), ("example.com", true)] "example.com" = 3 ∧
    totalCount [("example.com", true), ("example.com", true),
        ("example.com", false), ("example.com", true)] "example.com" = 4 ∧
    pyRound ((100 * 3 : ℚ) / 4) = 75 :=
  ⟨(c3_availability_formula [("example.com", true), ("example.com", true),
      ("example.com", false), ("example.com", true)] "example.com" (by decide)).1,
   by decide, by decide,
   (c3_availability_formula [("example.com", true), ("example.com", true),
      ("example.com", false), ("example.com", true)] "example.com" (by decide)).2.2.1⟩

/-- A sweep over a config containing a record without a url key raises
`KeyError` (src/monitor.py line 99, `endpoint["url"]`). -/
theorem sweep_keyError (oracle : Nat → HttpOutcome) :
    ∀ (cfg : List Endpoint) (i : Nat) (s : DomainStats),
      (∃ e ∈ cfg, e.url = none) → (sweep oracle cfg i s).err = some .keyError := by
  intro cfg
  induction cfg with
  | nil =>
    rintro i s ⟨e, he, _⟩
    simp at he
  | cons e0 rest ih =>
    rintro i s ⟨e, he, hurl⟩
    cases hu : e0.url with
    | none => simp [sweep, hu]
    | some u =>
      obtain ⟨b, hb⟩ := check_health_ok e0 u (oracle i) hu
      simp only [sweep, hu, hb]
      apply ih
      rcases List.mem_cons.mp he with h | h
      · subst h
        rw [hu] at hurl
        exact absurd hurl (by simp)
      · exact ⟨e, h, hurl⟩

/-- C4 counterexample: for a parsed config whose single record lacks the
url field, the schema error is logged, but the first monitoring cycle
raises an uncaught `KeyError` — the probe is not classified DOWN or
excluded, and the loop aborts before issuing any probe or printing. -/
theorem c4_missing_url_counterexample :
    (monitor_endpoints (.ok [{ name := some "careers" }]) (fun _ => .response 200) 1).err
      = some .keyError ∧
    (monitor_endpoints (.ok [{ name := some "careers" }]) (fun _ => .response 200) 1).probes
      = 0 ∧
    (monitor_endpoints (.ok [{ name := some "careers" }]) (fun _ => .response 200) 1).output
      = [] ∧
    (monitor_endpoints (.ok [{ name := some "careers" }]) (fun _ => .response 200) 1).schemaLog
      = ["SchemaError"] := by decide

/-- C4 amended: for a config with a record missing the url field, the
Schema Validator logs an error and validation itself does not abort, but
the subsequent probe for that record does not fail gracefully: the
monitoring loop raises an uncaught `KeyError` at `endpoint["url"]` and
the process crashes. -/
theorem c4_missing_url_amended (config : List Endpoint) (oracle : Nat → HttpOutcome)
    (cycles : Nat) (hbad : ∃ e ∈ config, e.url = none) (hc : 1 ≤ cycles) :
    (check_schema config).isSome ∧
    (monitor_endpoints (.ok config) oracle cycles).err = some .keyError := by
  constructor
  · obtain ⟨e, he, hurl⟩ := hbad
    have hall : config.all validEndpoint = false := by
      rw [List.all_eq_false]
      exact ⟨e, he, by simp [validEndpoint, hurl]⟩
    simp [check_schema, hall]
  · obtain ⟨m, rfl⟩ : ∃ m, cycles = m + 1 := ⟨cycles - 1, by omega⟩
    have hs := sweep_keyError oracle config 0 [] hbad
    simp only [monitor_endpoints, runCycles, hs]

/-- C4 witness for the amended claim: a two-record config whose second
record lacks url logs a schema error and crashes with `KeyError`. -/
theorem c4_missing_url_amended_witness :
    (∃ e ∈ [({ name := some "ok", url := some "http://example.com" } : Endpoint),
        { name := some "careers" }], e.url = none) ∧
    (check_schema [({ name := some "ok", url := some "http://example.com" } : Endpoint),
        { name := some "careers" }]).isSome ∧
    (monitor_endpoints
        (.ok [({ name := some "ok", url := some "http://example.com" } : Endpoint),
          { name := some "careers" }]) (fun _ => .response 200) 1).err
      = some .keyError :=
  ⟨by decide,
   (c4_missing_url_amended _ (fun _ => .response 200) 1 (by decide) (by decide)).1,
   (c4_missing_url_amended _ (fun _ => .response 200) 1 (by decide) (by decide)).2⟩

/-- C6: two endpoints whose URLs share a registrable domain are recorded
into a single combined Domain Stats entry: after a sweep over both, the
table has exactly one entry for that domain, carrying both probes in its
total counter. -/
theorem c6_same_domain_single_entry (e1 e2 : Endpoint) (u1 u2 : String)
    (oracle : Nat → HttpOutcome) (h1 : e1.url = some u1) (h2 : e2.url = some u2)
    (hd : extract_domain u2 = extract_domain u1) :
    ∃ up : Nat, (sweep oracle [e1, e2] 0 []).stats = [(extract_domain u1, (up, 2))] ∧
      keyCount (sweep oracle [e1, e2] 0 []).stats (extract_domain u1) = 1 := by
  obtain ⟨b1, hb1⟩ := check_health_ok e1 u1 (oracle 0) h1
  obtain ⟨b2, hb2⟩ := check_health_ok e2 u2 (oracle 1) h2
  simp only [sweep, h1, h2, hb1, hb2, hd]
  cases b1 <;> cases b2
  · exact ⟨0, by simp [record], by simp [record, keyCount, List.filter_cons, List.filter_nil]⟩
  · exact ⟨1, by simp [record], by simp [record, keyCount, List.filter_cons, List.filter_nil]⟩
  · exact ⟨1, by simp [record], by simp [record, keyCount, List.filter_cons, List.filter_nil]⟩
  · exact ⟨2, by simp [record], by simp [record, keyCount, List.filter_cons, List.filter_nil]⟩

/-- C6 witness: two subdomains of example.co.uk are aggregated into one
entry. -/
theorem c6_same_domain_single_entry_witness :
    extract_domain "https://www.example.co.uk/y"
      = extract_domain "https://api.shop.example.co.uk/x" ∧
    ∃ up : Nat,
      (sweep (fun _ => .response 200)
          [{ name := some "a", url := some "https://api.shop.example.co.uk/x" },
           { name := some "b", url := some "https://www.example.co.uk/y" }] 0 []).stats
        = [(extract_domain "https://api.shop.example.co.uk/x", (up, 2))] ∧
      keyCount (sweep (fun _ => .response 200)
          [{ name := some "a", url := some "https://api.shop.example.co.uk/x" },
           { name := some "b", url := some "https://www.example.co.uk/y" }] 0 []).stats
          (extract_domain "https://api.shop.example.co.uk/x") = 1 :=
  ⟨by rfl,
   c6_same_domain_single_entry _ _ "https://api.shop.example.co.uk/x"
     "https://www.example.co.uk/y" (fun _ => .response 200) rfl rfl (by rfl)⟩

/-- C8: the availability percentage is only computed for domains with at
least one recorded probe: every entry of the stats table has a positive
total counter, and no run ever raises `ZeroDivisionError`. -/
theorem c8_no_zero_division (load : ConfigLoad) (oracle : Nat → HttpOutcome)
    (cycles : Nat) :
    (monitor_endpoints load oracle cycles).err ≠ some .zeroDivisionError ∧
    ∀ p ∈ (monitor_endpoints load oracle cycles).stats, 1 ≤ p.2.2 := by
  cases load with
  | readError => exact ⟨by simp [monitor_endpoints], by simp [monitor_endpoints]⟩
  | parseError => exact ⟨by simp [monitor_endpoints], by simp [monitor_endpoints]⟩
  | ok config =>
    constructor
    · exact runCycles_err oracle config cycles 0 [] (by simp)
    · exact runCycles_preserves record_preserves_pos oracle config cycles 0 [] (by simp)

/-- C8 witness: a concrete one-endpoint run, whose single stats entry has
total 1, raises no `ZeroDivisionError`. -/
theorem c8_no_zero_division_witness :
    (monitor_endpoints (.ok [{ name := some "a", url := some "http://example.com/path" }])
        (fun _ => .response 200) 1).err ≠ some .zeroDivisionError ∧
    1 ≤ (("example.com", ((1 : Nat), (1 : Nat)))).2.2 :=
  ⟨(c8_no_zero_division (.ok [{ name := some "a", url := some "http://example.com/path" }])
      (fun _ => .response 200) 1).1,
   (c8_no_zero_division (.ok [{ name := some "a", url := some "http://example.com/path" }])
      (fun _ => .response 200) 1).2 ("example.com", (1, 1)) (by decide)⟩

/-- C9: per-domain counters are monotonically non-decreasing over the run
(never reset), total is incremented exactly once per probe and up at most
once (and only for the probed domain), `up <= total` always holds, and
every reported percentage is an integer in [0, 100]. -/
theorem c9_counters_monotone (oracle : Nat → HttpOutcome) (cfg : List Endpoint)
    (d : String) :
    (∀ (s : DomainStats) (b : Bool),
      statsLookup (record s d b) d
        = ((statsLookup s d).1 + (if b then 1 else 0), (statsLookup s d).2 + 1)) ∧
    (∀ (s : DomainStats) (d' : String) (b : Bool), d ≠ d' →
      statsLookup (record s d' b) d = statsLookup s d) ∧
    (∀ (n i : Nat) (s : DomainStats),
      (statsLookup s d).1 ≤ (statsLookup (runCycles oracle cfg n i s).stats d).1 ∧
      (statsLookup s d).2 ≤ (statsLookup (runCycles oracle cfg n i s).stats d).2) ∧
    (∀ cycles, ∀ p ∈ (monitor_endpoints (.ok cfg) oracle cycles).stats,
      p.2.1 ≤ p.2.2 ∧ 0 ≤ pyRound ((100 * p.2.1 : ℚ) / p.2.2)
        ∧ pyRound ((100 * p.2.1 : ℚ) / p.2.2) ≤ 100) := by
  refine ⟨fun s b => statsLookup_record_self s d b,
    fun s d' b h => statsLookup_record_other s d' d b h,
    fun n i s => statsLookup_le_runCycles oracle cfg n i s d, ?_⟩
  intro cycles p hp
  have hle : p.2.1 ≤ p.2.2 :=
    runCycles_preserves record_preserves_le oracle cfg cycles 0 [] (by simp) p hp
  have hpos : 1 ≤ p.2.2 :=
    runCycles_preserves record_preserves_pos oracle cfg cycles 0 [] (by simp) p hp
  obtain ⟨hb1, hb2⟩ := pyRound_availability_bounds hle hpos
  exact ⟨hle, hb1, hb2⟩

/-- C9 witness: concrete counter updates and the bounds at a concrete
stats entry of a one-cycle run. -/
theorem c9_counters_monotone_witness :
    statsLookup (record [] "example.com" true) "example.com"
      = ((statsLookup [] "example.com").1 + (if true then 1 else 0),
         (statsLookup [] "example.com").2 + 1) ∧
    statsLookup (record [] "other" false) "example.com" = statsLookup [] "example.com" ∧
    ((1 : Nat) ≤ (1 : Nat) ∧ 0 ≤ pyRound ((100 * (1 : Nat) : ℚ) / (1 : Nat))
      ∧ pyRound ((100 * (1 : Nat) : ℚ) / (1 : Nat)) ≤ 100) :=
  ⟨(c9_counters_monotone (fun _ => .response 200)
      [{ name := some "a", url := some "http://example.com/path" }] "example.com").1 [] true,
   (c9_counters_monotone (fun _ => .response 200)
      [{ name := some "a", url := some "http://example.com/path" }] "example.com").2.1
      [] "other" false (by decide),
   (c9_counters_monotone (fun _ => .response 200)
      [{ name := some "a", url := some "http://example.com/path" }] "example.com").2.2.2
      1 ("example.com", (1, 1)) (by decide)⟩

end Monitor
